import Mathlib

/-!
Verification development for the CV Telegram bot (src/bot.py).

The relevant parts of the program are embedded shallowly:

* the per-user export quota table `cv_quota` and the two operations
  `DB.can_export_today` / `DB.bump_export` (src/bot.py lines 203-231),
* the docx export branch of `export_router` (src/bot.py lines 812-822),
* the append-only experience/education tables (`DB.add_experience`,
  `DB.add_education`, `DB.fetch_full_profile`),
* skill-set normalization and the multi-line bullet capture (`exp_bullets`),
* the fallback document layout built in `render_docx_for_profile`.

Strings are modelled as `List Char`; calendar dates as `Nat`; the SQLite
tables as Lean lists in rowid (insertion) order.
-/

namespace CVBot

abbrev Str := List Char

/- ======================= Quota (src/bot.py 203-231) ======================= -/

/-- One row of the `cv_quota` table: `daily_used` and `last_reset`.
Dates are abstracted as `Nat`; the code only compares them for equality. -/
structure QuotaRow where
  used : Nat
  lastReset : Nat
deriving DecidableEq

/-- `DB.can_export_today` (src/bot.py 203-216).  The SQLite row for the user
is `q`; the function both returns the allowance decision and mutates the
row, so it is embedded as state passing.  A missing row is inserted with
`daily_used = 0` and the function returns `True` unconditionally; a stale
row is reset to zero before the `used < free_limit` comparison. -/
def can_export_today (today : Nat) (free_limit : Nat) (q : Option QuotaRow) :
    Bool × Option QuotaRow :=
  match q with
  | none => (true, some ⟨0, today⟩)
  | some r =>
      if r.lastReset ≠ today then (decide (0 < free_limit), some ⟨0, today⟩)
      else (decide (r.used < free_limit), some r)

/-- `DB.bump_export` (src/bot.py 218-231). -/
def bump_export (today : Nat) (q : Option QuotaRow) : Option QuotaRow :=
  match q with
  | none => some ⟨1, today⟩
  | some r =>
      if r.lastReset ≠ today then some ⟨1, today⟩
      else some ⟨r.used + 1, r.lastReset⟩

/-- The usage counter that counts for the current date: a missing row or a
row whose `last_reset` differs from today counts as zero. -/
def currentUsed (today : Nat) (q : Option QuotaRow) : Nat :=
  match q with
  | none => 0
  | some r => if r.lastReset = today then r.used else 0

/- =================== Record store (src/bot.py 253-305) =================== -/

/-- One `cv_experience` row (minus ids); `bullets` is the JSON-decoded list. -/
structure ExpEntry where
  company : Str
  role : Str
  start_date : Str
  end_date : Str
  bullets : List Str
deriving DecidableEq

/-- One `cv_education` row (minus ids). -/
structure EduEntry where
  degree : Str
  major : Str
  school : Str
  year : Str
deriving DecidableEq

/-- The experience and education tables.  SQLite assigns autoincrementing
rowids, and `fetch_full_profile` reads rows back in rowid order, so each
table is a list in insertion order, tagged with the owning `profile_id`. -/
structure Store where
  expTable : List (Nat × ExpEntry)
  eduTable : List (Nat × EduEntry)
deriving DecidableEq

def Store.empty : Store := ⟨[], []⟩

/-- `DB.add_experience` (src/bot.py 253-259): one `INSERT`, appending a row. -/
def add_experience (pid : Nat) (e : ExpEntry) (s : Store) : Store :=
  { s with expTable := s.expTable ++ [(pid, e)] }

/-- `DB.add_education` (src/bot.py 261-267). -/
def add_education (pid : Nat) (d : EduEntry) (s : Store) : Store :=
  { s with eduTable := s.eduTable ++ [(pid, d)] }

/-- The experience part of `DB.fetch_full_profile` (src/bot.py 287-296):
`SELECT ... FROM cv_experience WHERE profile_id=?` in rowid order. -/
def fetch_experiences (s : Store) (pid : Nat) : List ExpEntry :=
  (s.expTable.filter (fun r => r.1 = pid)).map (fun r => r.2)

/-- A dialogue-driven mutation of the record store: the experience and
education sub-flows end in exactly one insert each. -/
inductive StoreOp where
  | addExp (pid : Nat) (e : ExpEntry)
  | addEdu (pid : Nat) (d : EduEntry)

def applyOp (op : StoreOp) (s : Store) : Store :=
  match op with
  | .addExp pid e => add_experience pid e s
  | .addEdu pid d => add_education pid d s

def applyOps (ops : List StoreOp) (s : Store) : Store :=
  ops.foldl (fun s op => applyOp op s) s

/-- The experience entries a sequence of operations adds for `pid`, in
order of execution. -/
def expsAdded (pid : Nat) (ops : List StoreOp) : List ExpEntry :=
  ops.filterMap (fun op =>
    match op with
    | .addExp p e => if p = pid then some e else none
    | .addEdu _ _ => none)

/- ============ The docx export branch of export_router (812-822) ============ -/

/-- Observable milestones of one docx export request, in program order:
the upgrade prompt on denial, the rendering outcome, the
`DB.bump_export` call, and the document delivery outcome. -/
inductive ExportEvent where
  | denyPrompt
  | rendered
  | renderFailed
  | bumped
  | delivered
  | deliveryFailed
deriving DecidableEq

/-- Final state and event trace of one docx export request. -/
structure ExportOutcome where
  quota : Option QuotaRow
  store : Store
  events : List ExportEvent
deriving DecidableEq

/-- Lines 816-821 of src/bot.py: render the docx (which raises if the
profile cannot be fetched, modelled by `profileExists = false`), then call
`DB.bump_export`, then send the document (which can fail in the transport,
modelled by `deliveryOk`).  The bump is executed before the delivery is
attempted, and the exception of a failed delivery propagates after it. -/
def renderAndDeliver (today : Nat) (profileExists deliveryOk : Bool)
    (q : Option QuotaRow) (st : Store) : ExportOutcome :=
  if profileExists then
    let q2 := bump_export today q
    if deliveryOk then ⟨q2, st, [.rendered, .bumped, .delivered]⟩
    else ⟨q2, st, [.rendered, .bumped, .deliveryFailed]⟩
  else ⟨q, st, [.renderFailed]⟩

/-- The `kind == "docx"` branch of `export_router` (src/bot.py 812-822).
`if not db.is_vip(user_id) and not db.can_export_today(user_id, free_limit=1)`
short-circuits: for a VIP user `can_export_today` is never called; for a
non-VIP user it is called (mutating the quota row) and its decision gates
the export.  The résumé record store `st` is only ever read. -/
def export_docx (today : Nat) (vip profileExists deliveryOk : Bool)
    (q : Option QuotaRow) (st : Store) : ExportOutcome :=
  if vip then renderAndDeliver today profileExists deliveryOk q st
  else
    let res := can_export_today today 1 q
    if res.1 then renderAndDeliver today profileExists deliveryOk res.2 st
    else ⟨res.2, st, [.denyPrompt]⟩

/- ============================ Helper lemmas ============================ -/

theorem currentUsed_bump (today : Nat) (q : Option QuotaRow) :
    currentUsed today (bump_export today q) = currentUsed today q + 1 := by
  match q with
  | none => simp [bump_export, currentUsed]
  | some r =>
      by_cases h : r.lastReset = today
      · simp [bump_export, currentUsed, h]
      · simp [bump_export, currentUsed, h]

theorem currentUsed_can (today limit : Nat) (q : Option QuotaRow) :
    currentUsed today (can_export_today today limit q).2 = currentUsed today q := by
  match q with
  | none => simp [can_export_today, currentUsed]
  | some r =>
      by_cases h : r.lastReset = today
      · simp [can_export_today, currentUsed, h]
      · simp [can_export_today, currentUsed, h]

/- ============================== Claims ============================== -/

/-- C10: with no existing quota row, `DB.can_export_today` inserts a row
with `daily_used = 0` and `last_reset = today` and returns `True`
unconditionally, for every configured limit — even `free_limit = 0` — so
the allowance check itself mutates the store. -/
theorem C10_theorem (today free_limit : Nat) :
    can_export_today today free_limit none = (true, some ⟨0, today⟩) := rfl

/-- C4: daily quota with limit 1 for a non-privileged user: the first check
on a date answers `true` (creating the row); after one `bump_export` on
that date every further check that date answers `false`; any row whose
stored `last_reset` differs from the current date answers `true` again
(usage treated as zero), in particular the scenario row on a later date. -/
theorem C4_theorem (today d2 : Nat) (h : d2 ≠ today) :
    (can_export_today today 1 none).1 = true ∧
    (can_export_today today 1
        (bump_export today (can_export_today today 1 none).2)).1 = false ∧
    (∀ r : QuotaRow, r.lastReset ≠ d2 →
        (can_export_today d2 1 (some r)).1 = true) ∧
    (can_export_today d2 1
        (bump_export today (can_export_today today 1 none).2)).1 = true := by
  refine ⟨rfl, ?_, ?_, ?_⟩
  · simp [can_export_today, bump_export]
  · intro r hr
    simp [can_export_today, hr]
  · simp [can_export_today, bump_export, Ne.symm h]

theorem C4_witness :
    (can_export_today 0 1
        (bump_export 0 (can_export_today 0 1 none).2)).1 = false :=
  (C4_theorem 0 1 (by decide)).2.1

/-- C1 counterexample: a VIP-flagged user with no quota row exports a docx
once; the export is allowed, yet `DB.bump_export` is invoked and the
user's counter rises to 1 — refuting "recordUsage is never invoked on a
privileged user's counters". -/
theorem C1_counterexample :
    ExportEvent.bumped ∈ (export_docx 0 true true true none Store.empty).events ∧
    (export_docx 0 true true true none Store.empty).quota = some ⟨1, 0⟩ := by
  decide

/-- C1 (amended): a privileged (VIP-flagged) user's docx export is always
allowed — the gate never emits the denial prompt, whatever the quota row
holds and hence for any number of requests in a day — but `DB.bump_export`
IS invoked on each export whose rendering succeeds, incrementing the
user's counter for the day by one. -/
theorem C1_theorem (today : Nat) (pe dOk : Bool) (q : Option QuotaRow) (st : Store) :
    ExportEvent.denyPrompt ∉ (export_docx today true pe dOk q st).events ∧
    (pe = true →
      ExportEvent.bumped ∈ (export_docx today true pe dOk q st).events ∧
      currentUsed today (export_docx today true pe dOk q st).quota
        = currentUsed today q + 1) := by
  constructor
  · cases pe <;> cases dOk <;> simp [export_docx, renderAndDeliver]
  · intro hpe
    subst hpe
    cases dOk <;>
      simp [export_docx, renderAndDeliver, currentUsed_bump]

theorem C1_witness :
    ExportEvent.bumped ∈ (export_docx 0 true true true (some ⟨3, 0⟩) Store.empty).events :=
  ((C1_theorem 0 true true (some ⟨3, 0⟩) Store.empty).2 rfl).1

/-- C2 counterexample: a non-privileged user within quota exports a docx;
rendering succeeds, `DB.bump_export` runs, and only then does delivery
fail — the trace ends `deliveryFailed` with the counter already at 1,
refuting "if artifact delivery fails after rendering, the counter is
unchanged". -/
theorem C2_counterexample :
    (export_docx 0 false true false none Store.empty).events
      = [.rendered, .bumped, .deliveryFailed] ∧
    (export_docx 0 false true false none Store.empty).quota = some ⟨1, 0⟩ := by
  decide

/-- C2 (amended): the usage counter is incremented exactly when the gate
allowed the export and the artifact was successfully rendered — the
increment happens before delivery is attempted, so a delivery failure
after rendering leaves the counter incremented, while a denial or a
rendering failure leaves today's effective usage unchanged. -/
theorem C2_theorem (today : Nat) (vip pe dOk : Bool) (q : Option QuotaRow) (st : Store) :
    (ExportEvent.bumped ∈ (export_docx today vip pe dOk q st).events ↔
      ExportEvent.rendered ∈ (export_docx today vip pe dOk q st).events) ∧
    (ExportEvent.rendered ∈ (export_docx today vip pe dOk q st).events →
      currentUsed today (export_docx today vip pe dOk q st).quota
        = currentUsed today q + 1) ∧
    (ExportEvent.rendered ∉ (export_docx today vip pe dOk q st).events →
      currentUsed today (export_docx today vip pe dOk q st).quota
        = currentUsed today q) := by
  have hcan := currentUsed_can today 1 q
  cases vip <;> cases pe <;> cases dOk <;>
    by_cases hall : (can_export_today today 1 q).1 = true <;>
      simp_all [export_docx, renderAndDeliver, currentUsed_bump, currentUsed_can]

theorem C2_witness :
    currentUsed 0 (export_docx 0 false true false none Store.empty).quota
      = currentUsed 0 (none : Option QuotaRow) + 1 :=
  (C2_theorem 0 false true false none Store.empty).2.1 (by decide)

/-- C6: when the gate denies a non-privileged user (row for today with the
free limit already used), the export attempt ends with the upgrade prompt
and nothing else: the quota row, today's effective usage and the résumé
record store are returned unchanged, and no rendering, bump or delivery
event occurs — in particular entitlement was decided before any rendering
began. -/
theorem C6_theorem (today : Nat) (pe dOk : Bool) (r : QuotaRow) (st : Store)
    (hdate : r.lastReset = today) (hused : 1 ≤ r.used) :
    export_docx today false pe dOk (some r) st
      = ⟨some r, st, [ExportEvent.denyPrompt]⟩ := by
  have hlt : ¬ r.used < 1 := by omega
  simp [export_docx, can_export_today, hdate, hlt]

theorem C6_witness :
    export_docx 0 false true true (some ⟨1, 0⟩) Store.empty
      = ⟨some ⟨1, 0⟩, Store.empty, [ExportEvent.denyPrompt]⟩ :=
  C6_theorem 0 true true ⟨1, 0⟩ Store.empty rfl (by decide)

/-- The fetched experience list after a batch of operations is the one
before it plus the entries the batch added for that profile, in execution
order. -/
theorem fetch_applyOps (ops : List StoreOp) (s : Store) (pid : Nat) :
    fetch_experiences (applyOps ops s) pid
      = fetch_experiences s pid ++ expsAdded pid ops := by
  induction ops generalizing s with
  | nil => simp [applyOps, expsAdded]
  | cons op ops ih =>
      cases op with
      | addExp p e =>
          by_cases hp : p = pid
          · subst hp
            simp [applyOps, expsAdded, List.foldl_cons, applyOp] at *
            rw [ih]
            simp [fetch_experiences, add_experience, List.filter_append]
          · simp only [applyOps, List.foldl_cons, applyOp] at *
            rw [show expsAdded pid (StoreOp.addExp p e :: ops) = expsAdded pid ops by
              simp [expsAdded, hp]]
            rw [ih]
            simp [fetch_experiences, add_experience, List.filter_append, hp]
      | addEdu p d =>
          simp only [applyOps, List.foldl_cons, applyOp] at *
          rw [show expsAdded pid (StoreOp.addEdu p d :: ops) = expsAdded pid ops by
            simp [expsAdded]]
          rw [ih]
          simp [fetch_experiences, add_education]

/-- C9: for every sequence of experience additions, arbitrarily interleaved
with education additions, fetching from an initially empty store returns
exactly the experience entries added for that profile, in the order they
were added (hence N additions yield N entries in insertion order). -/
theorem C9_theorem (ops : List StoreOp) (pid : Nat) :
    fetch_experiences (applyOps ops Store.empty) pid = expsAdded pid ops := by
  have h := fetch_applyOps ops Store.empty pid
  simpa [fetch_experiences, Store.empty] using h

/- ==================== Python string primitives ==================== -/

/-- The whitespace characters Python's bare `str.strip()` removes (the
ASCII ones; no other whitespace occurs in the separators at issue). -/
def pyIsSpace (c : Char) : Bool :=
  c = ' ' || c = '\t' || c = '\n' || c = '\r' || c = '\x0b' || c = '\x0c'

/-- Remove the trailing run of characters satisfying `p`. -/
def stripTrailing (p : Char → Bool) (l : Str) : Str :=
  (l.reverse.dropWhile p).reverse

/-- Python's `str.strip(chars)`: remove the leading and trailing runs of
characters satisfying `p`. -/
def pyStrip (p : Char → Bool) (l : Str) : Str :=
  stripTrailing p (l.dropWhile p)

theorem dropWhile_self (p : Char → Bool) :
    ∀ l : Str, (l.dropWhile p).dropWhile p = l.dropWhile p := by
  intro l
  induction l with
  | nil => rfl
  | cons a l ih =>
      by_cases h : p a
      · simpa [List.dropWhile_cons, h] using ih
      · simp [List.dropWhile_cons, h]

theorem stripTrailing_sublist (p : Char → Bool) (l : Str) :
    List.Sublist (stripTrailing p l) l := by
  have h := (List.dropWhile_sublist (l := l.reverse) p).reverse
  simpa [stripTrailing] using h

theorem pyStrip_sublist (p : Char → Bool) (l : Str) :
    List.Sublist (pyStrip p l) l :=
  (stripTrailing_sublist p (l.dropWhile p)).trans (List.dropWhile_sublist p)

theorem mem_of_mem_pyStrip {p : Char → Bool} {l : Str} {c : Char}
    (h : c ∈ pyStrip p l) : c ∈ l :=
  (pyStrip_sublist p l).subset h

theorem stripTrailing_stripTrailing (p : Char → Bool) (l : Str) :
    stripTrailing p (stripTrailing p l) = stripTrailing p l := by
  simp [stripTrailing, dropWhile_self]

/-- A nonempty trailing-strip of `a :: t` still starts with `a`. -/
theorem stripTrailing_head (p : Char → Bool) (a : Char) (t : Str) :
    stripTrailing p (a :: t) = [] ∨
      ∃ u, stripTrailing p (a :: t) = a :: u := by
  obtain ⟨w, hw⟩ := List.dropWhile_suffix (l := (a :: t).reverse) p
  rcases hs : ((a :: t).reverse.dropWhile p).reverse with _ | ⟨b, u⟩
  · left; exact hs
  · right
    refine ⟨u, ?_⟩
    have h1 : ((a :: t).reverse.dropWhile p).reverse ++ w.reverse = a :: t := by
      have h2 := congrArg List.reverse hw
      simpa [List.reverse_append] using h2
    rw [hs] at h1
    have hb : b = a := by
      have h3 := congrArg (fun l : Str => l.head?) h1
      simpa using h3
    exact hb ▸ hs

/-- A list already free of a leading `p`-run stays so after trailing
stripping: the head, when present, is preserved. -/
theorem dropWhile_stripTrailing (p : Char → Bool) (l : Str)
    (h : l.dropWhile p = l) :
    (stripTrailing p l).dropWhile p = stripTrailing p l := by
  cases l with
  | nil => simp [stripTrailing]
  | cons a t =>
      have ha : p a = false := by
        by_cases hpa : p a
        · exfalso
          have hle : (t.dropWhile p).length ≤ t.length :=
            (List.dropWhile_sublist p).length_le
          have h2 : List.dropWhile p t = a :: t := by
            rw [List.dropWhile_cons, if_pos hpa] at h; exact h
          have h3 := congrArg List.length h2
          simp at h3
          omega
        · simpa using hpa
      rcases stripTrailing_head p a t with h0 | ⟨u, hu⟩
      · simp [h0]
      · rw [hu]
        simp [List.dropWhile_cons, ha]

theorem pyStrip_idem (p : Char → Bool) (l : Str) :
    pyStrip p (pyStrip p l) = pyStrip p l := by
  unfold pyStrip
  rw [dropWhile_stripTrailing p (l.dropWhile p) (dropWhile_self p l),
    stripTrailing_stripTrailing]

/- ============ Splitting and joining on a separator character ============ -/

/-- Python's `str.split(sep)` for a one-character separator: splitting the
empty string yields one empty piece, and every separator occurrence starts
a new piece. -/
def splitOnChar (c : Char) : Str → List Str
  | [] => [[]]
  | x :: xs =>
      if x = c then [] :: splitOnChar c xs
      else
        match splitOnChar c xs with
        | [] => [[x]]
        | t :: ts => (x :: t) :: ts

theorem splitOnChar_ne_nil (c : Char) : ∀ l : Str, splitOnChar c l ≠ [] := by
  intro l
  induction l with
  | nil => simp [splitOnChar]
  | cons x xs ih =>
      by_cases h : x = c
      · simp [splitOnChar, h]
      · rcases hs : splitOnChar c xs with _ | ⟨t, ts⟩
        · simp [splitOnChar, h, hs]
        · simp [splitOnChar, h, hs]

theorem not_mem_of_mem_splitOnChar (c : Char) :
    ∀ (l : Str), ∀ t ∈ splitOnChar c l, c ∉ t := by
  intro l
  induction l with
  | nil =>
      intro t ht
      simp [splitOnChar] at ht
      simp [ht]
  | cons x xs ih =>
      intro t ht
      by_cases h : x = c
      · simp only [splitOnChar, h, if_pos] at ht
        rcases List.mem_cons.mp ht with h1 | h1
        · simp [h1]
        · exact ih t h1
      · rcases hs : splitOnChar c xs with _ | ⟨u, us⟩
        · exact absurd hs (splitOnChar_ne_nil c xs)
        · simp only [splitOnChar, h, if_neg, hs] at ht
          rcases List.mem_cons.mp ht with h1 | h1
          · subst h1
            intro hmem
            rcases List.mem_cons.mp hmem with h2 | h2
            · exact h h2.symm
            · exact ih u (by simp [hs]) h2
          · exact ih t (by simp [hs, h1])

theorem mem_of_mem_splitOnChar (c : Char) :
    ∀ (l : Str), ∀ t ∈ splitOnChar c l, ∀ x ∈ t, x ∈ l := by
  intro l
  induction l with
  | nil =>
      intro t ht
      simp [splitOnChar] at ht
      simp [ht]
  | cons a xs ih =>
      intro t ht x hx
      by_cases h : a = c
      · simp only [splitOnChar, h, if_pos] at ht
        rcases List.mem_cons.mp ht with h1 | h1
        · subst h1; simp at hx
        · exact List.mem_cons_of_mem _ (ih t h1 x hx)
      · rcases hs : splitOnChar c xs with _ | ⟨u, us⟩
        · exact absurd hs (splitOnChar_ne_nil c xs)
        · simp only [splitOnChar, h, if_neg, hs] at ht
          rcases List.mem_cons.mp ht with h1 | h1
          · subst h1
            rcases List.mem_cons.mp hx with h2 | h2
            · simp [h2]
            · exact List.mem_cons_of_mem _ (ih u (by simp [hs]) x h2)
          · exact List.mem_cons_of_mem _ (ih t (by simp [hs, h1]) x hx)

theorem splitOnChar_of_not_mem {c : Char} :
    ∀ {t : Str}, c ∉ t → splitOnChar c t = [t] := by
  intro t
  induction t with
  | nil => intro _; rfl
  | cons x xs ih =>
      intro h
      have hx : ¬ x = c := fun he => h (by simp [he])
      have hxs : c ∉ xs := fun hm => h (List.mem_cons_of_mem _ hm)
      simp [splitOnChar, hx, ih hxs]

theorem splitOnChar_append {c : Char} :
    ∀ {t : Str}, c ∉ t → ∀ r : Str,
      splitOnChar c (t ++ c :: r) = t :: splitOnChar c r := by
  intro t
  induction t with
  | nil => intro _ r; simp [splitOnChar]
  | cons x xs ih =>
      intro h r
      have hx : ¬ x = c := fun he => h (by simp [he])
      have hxs : c ∉ xs := fun hm => h (List.mem_cons_of_mem _ hm)
      have hrec := ih hxs r
      simp [splitOnChar, hx, List.append_eq, hrec]

/-- The join `sep.join(tokens)` for a one-character separator. -/
def joinSep (c : Char) : List Str → Str
  | [] => []
  | [t] => t
  | t :: ts => t ++ c :: joinSep c ts

theorem mem_joinSep {c : Char} :
    ∀ {ts : List Str}, ∀ x ∈ joinSep c ts, x = c ∨ ∃ t ∈ ts, x ∈ t := by
  intro ts
  induction ts with
  | nil => intro x hx; simp [joinSep] at hx
  | cons t ts ih =>
      intro x hx
      cases ts with
      | nil =>
          right
          exact ⟨t, by simp, by simpa [joinSep] using hx⟩
      | cons u us =>
          simp only [joinSep, List.mem_append, List.mem_cons] at hx
          rcases hx with h1 | h2 | h3
          · right; exact ⟨t, by simp, h1⟩
          · left; exact h2
          · rcases ih x h3 with h4 | ⟨v, hv, hxv⟩
            · left; exact h4
            · right; exact ⟨v, by simp [hv], hxv⟩

theorem splitOnChar_joinSep {c : Char} :
    ∀ {ts : List Str}, ts ≠ [] → (∀ t ∈ ts, c ∉ t) →
      splitOnChar c (joinSep c ts) = ts := by
  intro ts
  induction ts with
  | nil => intro h; exact absurd rfl h
  | cons t ts ih =>
      intro _ hmem
      cases ts with
      | nil =>
          simp only [joinSep]
          exact splitOnChar_of_not_mem (hmem t (by simp))
      | cons u us =>
          have h1 : c ∉ t := hmem t (by simp)
          have h2 : ∀ v ∈ u :: us, c ∉ v := fun v hv => hmem v (by simp [hv])
          simp only [joinSep]
          rw [splitOnChar_append h1 (joinSep c (u :: us)), ih (by simp) h2]

/- =================== Skill-set normalization (line 337) =================== -/

/-- The character substitution of `skills.replace("؛", ",")`. -/
def repArabic (c : Char) : Char := if c = '؛' then ',' else c

/-- `[s.strip() for s in (skills or "").replace("؛", ",").split(",") if s.strip()]`
(src/bot.py line 337): replace the Arabic semicolon by a comma, split on
commas, strip each piece, keep the non-empty ones. -/
def normalizeSkills (s : Str) : List Str :=
  ((splitOnChar ',' (s.map repArabic)).map (pyStrip pyIsSpace)).filter
    (fun t => !t.isEmpty)

theorem map_id_of_mem {α : Type} {f : α → α} :
    ∀ {l : List α}, (∀ x ∈ l, f x = x) → l.map f = l := by
  intro l
  induction l with
  | nil => intro _; rfl
  | cons a l ih =>
      intro h
      simp only [List.map_cons, h a (by simp), ih fun x hx => h x (by simp [hx])]

theorem normalizeSkills_tokens {s : Str} {t : Str} (h : t ∈ normalizeSkills s) :
    (',' : Char) ∉ t ∧ ('؛' : Char) ∉ t ∧ pyStrip pyIsSpace t = t ∧ t ≠ [] := by
  simp only [normalizeSkills, List.mem_filter, List.mem_map] at h
  obtain ⟨⟨u, hu, hut⟩, hne⟩ := h
  subst hut
  refine ⟨?_, ?_, pyStrip_idem pyIsSpace u, by simpa using hne⟩
  · intro hc
    exact not_mem_of_mem_splitOnChar ',' _ u hu (mem_of_mem_pyStrip hc)
  · intro hc
    have hmem : ('؛' : Char) ∈ s.map repArabic :=
      mem_of_mem_splitOnChar ',' _ u hu _ (mem_of_mem_pyStrip hc)
    rcases List.mem_map.mp hmem with ⟨x, _, hx⟩
    by_cases hx' : x = '؛' <;> simp [repArabic, hx'] at hx

/-- C3: SkillSet normalization is idempotent: normalizing, re-joining the
resulting ordered token list with the comma separator, and normalizing
again yields the same ordered token list as normalizing once, for every
input mixing `,` and `؛` separators and surrounding whitespace. -/
theorem C3_theorem (s : Str) :
    normalizeSkills (joinSep ',' (normalizeSkills s)) = normalizeSkills s := by
  set ts := normalizeSkills s with hts
  have htok : ∀ t ∈ ts, (',' : Char) ∉ t ∧ ('؛' : Char) ∉ t ∧
      pyStrip pyIsSpace t = t ∧ t ≠ [] := fun t ht => normalizeSkills_tokens (hts ▸ ht)
  have hmapid : (joinSep ',' ts).map repArabic = joinSep ',' ts := by
    apply map_id_of_mem
    intro x hx
    rcases mem_joinSep x hx with h1 | ⟨t, ht, hxt⟩
    · subst h1; simp [repArabic]
    · have : x ≠ '؛' := fun he => (htok t ht).2.1 (he ▸ hxt)
      simp [repArabic, this]
  rcases hts' : ts with _ | ⟨t, ts'⟩
  · simp [normalizeSkills, joinSep, splitOnChar, pyStrip, stripTrailing]
  · rw [← hts']
    have hsplit : splitOnChar ',' (joinSep ',' ts) = ts :=
      splitOnChar_joinSep (by simp [hts']) (fun t ht => (htok t ht).1)
    unfold normalizeSkills
    rw [hmapid, hsplit]
    rw [map_id_of_mem (fun t ht => (htok t ht).2.2.1)]
    rw [List.filter_eq_self.mpr (fun t ht => by simp [(htok t ht).2.2.2])]

/- ============ Multi-line bullet capture (src/bot.py 753-754) ============ -/

/-- Python's `str.splitlines()` restricted to the `\n`, `\r\n` and `\r`
line boundaries: no trailing empty line for a terminal newline, and the
empty string has no lines. -/
def splitlines : Str → List Str
  | [] => []
  | '\r' :: '\n' :: rest => [] :: splitlines rest
  | '\r' :: rest => [] :: splitlines rest
  | '\n' :: rest => [] :: splitlines rest
  | c :: rest =>
      match splitlines rest with
      | [] => [[c]]
      | t :: ts => (c :: t) :: ts

/-- The character set of `l.strip("• ")`. -/
def isBulletSpace (c : Char) : Bool := c = '•' || c = ' '

/-- The `exp_bullets` capture (src/bot.py 754):
`[l.strip("• ").strip() for l in update.message.text.splitlines() if l.strip()]`
— keep the lines that are non-blank after a whitespace strip, then strip
bullet glyphs and spaces from both ends and trim whitespace. -/
def exp_bullets_lines (text : Str) : List Str :=
  ((splitlines text).filter (fun l => !(pyStrip pyIsSpace l).isEmpty)).map
    (fun l => pyStrip pyIsSpace (pyStrip isBulletSpace l))

/- ============ Fallback document layout (src/bot.py 348-459) ============ -/

inductive Lang where
  | ar
  | en
deriving DecidableEq

/-- The header-field columns of one `cv_profile` row that the fallback
layout reads. -/
structure Profile where
  full_name : Str
  title : Str
  phone : Str
  email : Str
  city : Str
  links : Str
  summary : Str
  lang : Lang
deriving DecidableEq

/-- One visible element added to the fallback document, tagged by the call
site in `render_docx_for_profile` that adds it. -/
inductive DocItem where
  | sideHeading (text : Str)
  | contactLine (text : Str)
  | eduLine (text : Str)
  | skillLine (text : Str)
  | nameRun (text : Str)
  | titleRun (text : Str)
  | mainHeading (text : Str)
  | summaryLine (text : Str)
  | expHeader (text : Str)
  | expDates (text : Str)
  | expBullet (text : Str)
  | spacer
deriving DecidableEq

/-- Python's `str.upper()` as applied by `add_left_heading` (ASCII case
mapping; the Arabic headings have no case either way). -/
def pyUpper (s : Str) : Str := s.map Char.toUpper

/-- `f"• {x}"` -/
def fmtBullet (x : Str) : Str := '•' :: ' ' :: x

/-- `f"{a} — {b}"` (em dash), as in the experience and education lines. -/
def emDashJoin (a b : Str) : Str := a ++ ' ' :: '—' :: ' ' :: b

/-- `f" ({s} - {e})"` -/
def fmtDates (s e : Str) : Str :=
  ' ' :: '(' :: (s ++ ' ' :: '-' :: ' ' :: (e ++ [')']))

def contactHeading : Lang → Str
  | .en => "Contact".data
  | .ar => "الاتصال".data

def eduHeading : Lang → Str
  | .en => "Education".data
  | .ar => "التعليم".data

def skillsHeading : Lang → Str
  | .en => "Skills".data
  | .ar => "المهارات".data

def summaryHeading : Lang → Str
  | .en => "Summary".data
  | .ar => "الملخص".data

def expHeading : Lang → Str
  | .en => "Work Experience".data
  | .ar => "الخبرات".data

def catMap {α β : Type} (f : α → List β) : List α → List β
  | [] => []
  | a :: l => f a ++ catMap f l

/-- Lines 394-401: the contact block of the shaded sidebar.  Only the
non-empty ones of phone, email, city get a line, and the links line is
guarded the same way. -/
def renderContact (p : Profile) : List DocItem :=
  DocItem.sideHeading (pyUpper (contactHeading p.lang)) ::
    (([p.phone, p.email, p.city].filter (fun i => !i.isEmpty)).map DocItem.contactLine
      ++ if !p.links.isEmpty then [DocItem.contactLine p.links] else [])

/-- Lines 403-409: the education block of the sidebar; every entry gets a
"degree — school" line and, when non-empty, a year line. -/
def renderEduSide (lang : Lang) (edus : List EduEntry) : List DocItem :=
  DocItem.sideHeading (pyUpper (eduHeading lang)) ::
    catMap (fun ed =>
      DocItem.eduLine (emDashJoin ed.degree ed.school) ::
        if !ed.year.isEmpty then [DocItem.eduLine ed.year] else []) edus

/-- Lines 411-417: the skills block; `skills_list` is the normalized list
computed on line 337, with the raw string as secondary fallback. -/
def renderSkillsSide (lang : Lang) (skills : Str) : List DocItem :=
  DocItem.sideHeading (pyUpper (skillsHeading lang)) ::
    (if !(normalizeSkills skills).isEmpty then
      (normalizeSkills skills).map (fun x => DocItem.skillLine (fmtBullet x))
    else if !skills.isEmpty then [DocItem.skillLine skills] else [])

/-- Lines 419-430: the name/title header of the main column; the name run
is added unconditionally, the title run only when non-empty. -/
def renderHeader (p : Profile) : List DocItem :=
  DocItem.nameRun p.full_name ::
    ((if !p.title.isEmpty then [DocItem.titleRun p.title] else []) ++ [DocItem.spacer])

/-- Lines 432-440: the summary block; `wrap` stands for the external
`textwrap.wrap(·, width=120)`. -/
def renderSummary (wrap : Str → List Str) (lang : Lang) (summary : Str) : List DocItem :=
  DocItem.mainHeading (summaryHeading lang) ::
    ((if !summary.isEmpty then (wrap summary).map DocItem.summaryLine else [])
      ++ [DocItem.spacer])

/-- Lines 446-455: one experience entry of the main column, bullets capped
at the first 6 by `e.get("bullets", [])[:6]`. -/
def renderExpBlock (e : ExpEntry) : List DocItem :=
  DocItem.expHeader (emDashJoin e.role e.company) ::
    ((if !e.start_date.isEmpty || !e.end_date.isEmpty then
        [DocItem.expDates (fmtDates e.start_date e.end_date)] else [])
      ++ (e.bullets.take 6).map (fun b => DocItem.expBullet (fmtBullet b)))

/-- Lines 442-456: the experience block with its always-present heading. -/
def renderExps (lang : Lang) (exps : List ExpEntry) : List DocItem :=
  DocItem.mainHeading (expHeading lang) :: catMap renderExpBlock exps

/-- The whole built-in fallback layout (lines 348-459), in the order the
code adds content: sidebar (contact, education, skills), then the main
column (header, summary, experience), then the closing empty paragraph. -/
def renderFallbackDoc (wrap : Str → List Str) (p : Profile) (exps : List ExpEntry)
    (edus : List EduEntry) (skills : Str) : List DocItem :=
  renderContact p ++ [DocItem.spacer]
    ++ renderEduSide p.lang edus ++ [DocItem.spacer]
    ++ renderSkillsSide p.lang skills
    ++ renderHeader p
    ++ renderSummary wrap p.lang p.summary
    ++ renderExps p.lang exps
    ++ [DocItem.spacer]

/-- Result of `render_docx_for_profile`: either a document rendered from a
template asset via docxtpl, or the built-in fallback layout. -/
inductive RenderOutput where
  | fromTemplate
  | fallback (doc : List DocItem)
deriving DecidableEq

/-- `render_docx_for_profile` (src/bot.py 317-350 and the fallback body):
raises "Profile not found" if the profile cannot be fetched; renders
through the docxtpl template when the asset `{template}_{lang}.docx`
exists; otherwise raises when python-docx is not installed
(`Document is None`, line 349-350) and builds the fallback layout when it
is. -/
def render_docx_for_profile (wrap : Str → List Str) (tplExists docAvailable : Bool)
    (data : Option (Profile × List ExpEntry × List EduEntry × Str)) :
    Except Str RenderOutput :=
  match data with
  | none => .error "Profile not found".data
  | some (p, exps, edus, skills) =>
      if tplExists then .ok .fromTemplate
      else if docAvailable then
        .ok (.fallback (renderFallbackDoc wrap p exps edus skills))
      else .error "No template found and python-docx not installed".data

/-- A concrete stand-in for `textwrap.wrap`, to instantiate theorems. -/
def wrapId : Str → List Str := fun s => [s]

/-- A concrete English profile with every optional field empty. -/
def emptyProfileEn : Profile := ⟨[], [], [], [], [], [], [], .en⟩

/- ===================== Doc-model helper lemmas ===================== -/

theorem mem_ite_list {α : Type} {c : Prop} [Decidable c] (x : α) (l1 l2 : List α) :
    (x ∈ if c then l1 else l2) ↔ (c ∧ x ∈ l1) ∨ (¬ c ∧ x ∈ l2) := by
  split <;> simp_all

theorem filterMap_ite {α β : Type} {c : Prop} [Decidable c]
    (f : α → Option β) (l1 l2 : List α) :
    List.filterMap f (if c then l1 else l2)
      = if c then List.filterMap f l1 else List.filterMap f l2 := by
  split <;> rfl

theorem filterMap_none' {α β : Type} (l : List α) :
    List.filterMap (fun _ => (none : Option β)) l = [] := by
  induction l with
  | nil => rfl
  | cons a l ih => simp [List.filterMap_cons, ih]

theorem filterMap_some' {α β : Type} (f : α → β) (l : List α) :
    List.filterMap (fun a => some (f a)) l = l.map f := by
  induction l with
  | nil => rfl
  | cons a l ih => simp [List.filterMap_cons, ih]

/-- The experience bullet lines of a document, in order. -/
def docExpBullets (doc : List DocItem) : List Str :=
  doc.filterMap (fun i =>
    match i with
    | .expBullet t => some t
    | _ => none)

theorem docExpBullets_append (a b : List DocItem) :
    docExpBullets (a ++ b) = docExpBullets a ++ docExpBullets b := by
  simp [docExpBullets, List.filterMap_append]

theorem docExpBullets_eq_nil :
    ∀ {l : List DocItem}, (∀ t, DocItem.expBullet t ∉ l) → docExpBullets l = [] := by
  intro l
  induction l with
  | nil => intro _; rfl
  | cons a l ih =>
      intro h
      have ha : ∀ t, DocItem.expBullet t ∉ l :=
        fun t ht => h t (List.mem_cons_of_mem _ ht)
      have hh : ∀ t, a ≠ DocItem.expBullet t :=
        fun t he => h t (he ▸ List.mem_cons_self a l)
      cases a with
      | expBullet t => exact absurd rfl (hh t)
      | _ => simpa [docExpBullets, List.filterMap_cons] using ih ha

theorem mem_catMap {α β : Type} {f : α → List β} {x : β} :
    ∀ {l : List α}, x ∈ catMap f l ↔ ∃ a ∈ l, x ∈ f a := by
  intro l
  induction l with
  | nil => simp [catMap]
  | cons a l ih => simp [catMap, ih]

theorem expBullet_not_mem_contact (p : Profile) (t : Str) :
    DocItem.expBullet t ∉ renderContact p := by
  simp [renderContact, mem_ite_list]

theorem expBullet_not_mem_eduSide (lang : Lang) (edus : List EduEntry) (t : Str) :
    DocItem.expBullet t ∉ renderEduSide lang edus := by
  simp [renderEduSide, mem_catMap, mem_ite_list]

theorem expBullet_not_mem_skillsSide (lang : Lang) (skills : Str) (t : Str) :
    DocItem.expBullet t ∉ renderSkillsSide lang skills := by
  simp [renderSkillsSide, mem_ite_list]

theorem expBullet_not_mem_header (p : Profile) (t : Str) :
    DocItem.expBullet t ∉ renderHeader p := by
  simp [renderHeader, mem_ite_list]

theorem expBullet_not_mem_summary (wrap : Str → List Str) (lang : Lang)
    (summary : Str) (t : Str) :
    DocItem.expBullet t ∉ renderSummary wrap lang summary := by
  simp [renderSummary, mem_ite_list]

theorem docExpBullets_catMap (exps : List ExpEntry) :
    docExpBullets (catMap renderExpBlock exps)
      = catMap (fun e => (e.bullets.take 6).map fmtBullet) exps := by
  induction exps with
  | nil => rfl
  | cons e es ih =>
      simp only [catMap]
      rw [docExpBullets_append, ih]
      congr 1
      simp only [renderExpBlock, docExpBullets, List.filterMap_cons, filterMap_ite,
        List.filterMap_append]
      rw [List.filterMap_map]
      simp only [List.filterMap_nil, ite_self, List.nil_append]
      exact filterMap_some' fmtBullet (e.bullets.take 6)

theorem docExpBullets_renderFallbackDoc (wrap : Str → List Str) (p : Profile)
    (exps : List ExpEntry) (edus : List EduEntry) (skills : Str) :
    docExpBullets (renderFallbackDoc wrap p exps edus skills)
      = catMap (fun e => (e.bullets.take 6).map fmtBullet) exps := by
  simp only [renderFallbackDoc, docExpBullets_append]
  rw [docExpBullets_eq_nil (expBullet_not_mem_contact p),
    docExpBullets_eq_nil (expBullet_not_mem_eduSide p.lang edus),
    docExpBullets_eq_nil (expBullet_not_mem_skillsSide p.lang skills),
    docExpBullets_eq_nil (expBullet_not_mem_header p),
    docExpBullets_eq_nil (expBullet_not_mem_summary wrap p.lang p.summary)]
  have hsp : docExpBullets [DocItem.spacer] = [] := rfl
  rw [hsp]
  simp only [renderExps]
  have hcons : docExpBullets (DocItem.mainHeading (expHeading p.lang)
      :: catMap renderExpBlock exps) = docExpBullets (catMap renderExpBlock exps) := by
    simp [docExpBullets, List.filterMap_cons]
  rw [hcons, docExpBullets_catMap]
  simp

/- ===================== Claims about the renderer ===================== -/

/-- C5 counterexample: with the template asset absent and python-docx not
installed, `render_docx_for_profile` raises
`RuntimeError("No template found and python-docx not installed")` past
this layer instead of degrading — refuting "never fails". -/
theorem C5_counterexample :
    render_docx_for_profile wrapId false false (some (emptyProfileEn, [], [], []))
      = .error "No template found and python-docx not installed".data := rfl

/-- C5 (amended): for every template identifier whose asset is absent and
every supported language, rendering returns the built-in fallback layout,
which is never empty — provided the python-docx library is available; when
it is not, the function raises instead. -/
theorem C5_theorem (wrap : Str → List Str) (p : Profile) (exps : List ExpEntry)
    (edus : List EduEntry) (skills : Str) :
    render_docx_for_profile wrap false true (some (p, exps, edus, skills))
      = .ok (.fallback (renderFallbackDoc wrap p exps edus skills)) ∧
    renderFallbackDoc wrap p exps edus skills ≠ [] := by
  refine ⟨rfl, ?_⟩
  simp [renderFallbackDoc, renderContact]

/-- C7 counterexample: the message consisting of a bullet-glyph-only line
followed by "a" stores the list `["", "a"]`: the line `"•"` is non-blank
before bullet stripping, so it is kept and becomes an *empty* stored line
— refuting "strips ... discards empty lines" (which would yield `["a"]`). -/
theorem C7_counterexample :
    exp_bullets_lines ('•' :: '\n' :: 'a' :: []) = [[], ['a']] ∧
    [] ∈ exp_bullets_lines ('•' :: '\n' :: 'a' :: []) := by
  decide

/-- C7 (amended): capture splits the message on line boundaries, discards
the lines that are blank after a whitespace trim, and strips bullet glyphs
and spaces from *both* ends of each kept line before a final whitespace
trim (so a line of only bullet glyphs is stored as an empty string); every
stored line carries no surrounding whitespace; the full ordered list is
stored with the experience entry, and rendering emits exactly the first 6
stored lines per entry (hence at most 6) while storage retains them all. -/
theorem C7_theorem (text : Str) (pid : Nat) (co ro sd ed : Str)
    (wrap : Str → List Str) (p : Profile) (edus : List EduEntry) (skills : Str) :
    fetch_experiences
        (add_experience pid ⟨co, ro, sd, ed, exp_bullets_lines text⟩ Store.empty) pid
      = [⟨co, ro, sd, ed, exp_bullets_lines text⟩] ∧
    docExpBullets
        (renderFallbackDoc wrap p [⟨co, ro, sd, ed, exp_bullets_lines text⟩] edus skills)
      = ((exp_bullets_lines text).take 6).map fmtBullet ∧
    (docExpBullets
        (renderFallbackDoc wrap p [⟨co, ro, sd, ed, exp_bullets_lines text⟩] edus skills)).length
      ≤ 6 ∧
    (∀ t ∈ exp_bullets_lines text, pyStrip pyIsSpace t = t) := by
  refine ⟨?_, ?_, ?_, ?_⟩
  · simp [fetch_experiences, add_experience, Store.empty]
  · rw [docExpBullets_renderFallbackDoc]
    simp [catMap]
  · rw [docExpBullets_renderFallbackDoc]
    simp [catMap]
  · intro t ht
    simp only [exp_bullets_lines, List.mem_map] at ht
    obtain ⟨l, _, hl⟩ := ht
    rw [← hl]
    exact pyStrip_idem pyIsSpace _

theorem C7_witness :
    docExpBullets
        (renderFallbackDoc wrapId emptyProfileEn
          [⟨[], [], [], [], exp_bullets_lines ('•' :: '\n' :: 'a' :: [])⟩] [] [])
      = ((exp_bullets_lines ('•' :: '\n' :: 'a' :: [])).take 6).map fmtBullet :=
  (C7_theorem ('•' :: '\n' :: 'a' :: []) 0 [] [] [] []
    wrapId emptyProfileEn [] []).2.1

/-- C8 counterexample: rendering a record with *empty* experience and
education lists still emits the "Work Experience" and "EDUCATION" section
headings — the empty sections are not omitted entirely. -/
theorem C8_counterexample :
    DocItem.mainHeading (expHeading Lang.en)
        ∈ renderFallbackDoc wrapId emptyProfileEn [] [] [] ∧
    DocItem.sideHeading (pyUpper (eduHeading Lang.en))
        ∈ renderFallbackDoc wrapId emptyProfileEn [] [] [] := by
  constructor
  · simp [renderFallbackDoc, renderExps, emptyProfileEn]
  · simp [renderFallbackDoc, renderEduSide, emptyProfileEn]

/-- C8 (amended): a missing or empty optional field produces no line — no
contact line (phone/email/city/links) is ever empty, and an empty title or
summary contributes no title run or summary line; an empty experience or
education list contributes no entry items — but the section headings
(experience, education) are still emitted for empty sections rather than
the sections being omitted entirely. -/
theorem mem_fallback_cases {wrap : Str → List Str} {p : Profile}
    {exps : List ExpEntry} {edus : List EduEntry} {skills : Str} {x : DocItem}
    (h : x ∈ renderFallbackDoc wrap p exps edus skills) :
    x ∈ renderContact p ∨ x ∈ renderEduSide p.lang edus ∨
    x ∈ renderSkillsSide p.lang skills ∨ x ∈ renderHeader p ∨
    x ∈ renderSummary wrap p.lang p.summary ∨ x ∈ renderExps p.lang exps ∨
    x = DocItem.spacer := by
  simp only [renderFallbackDoc, List.mem_append, List.mem_singleton] at h
  tauto

theorem mem_contact_shape {p : Profile} {x : DocItem} (h : x ∈ renderContact p) :
    (∃ u, x = DocItem.sideHeading u) ∨ ∃ u, x = DocItem.contactLine u ∧ u ≠ [] := by
  simp only [renderContact, List.mem_cons, List.mem_append, List.mem_map,
    List.mem_filter, mem_ite_list, List.mem_singleton, List.not_mem_nil,
    and_false, or_false] at h
  rcases h with h | (⟨i, hi, he⟩ | ⟨hl, he⟩)
  · exact Or.inl ⟨_, h⟩
  · refine Or.inr ⟨i, he.symm, ?_⟩
    simpa using hi.2
  · refine Or.inr ⟨p.links, he, ?_⟩
    simpa using hl

theorem mem_eduSide_shape {lang : Lang} {edus : List EduEntry} {x : DocItem}
    (h : x ∈ renderEduSide lang edus) :
    x = DocItem.sideHeading (pyUpper (eduHeading lang)) ∨
      (edus ≠ [] ∧ ∃ u, x = DocItem.eduLine u) := by
  simp only [renderEduSide, List.mem_cons, mem_catMap, mem_ite_list,
    List.mem_singleton, List.not_mem_nil, and_false, or_false] at h
  rcases h with h | ⟨ed, hed, h2⟩
  · exact Or.inl h
  · refine Or.inr ⟨?_, ?_⟩
    · intro he; subst he; simp at hed
    · rcases h2 with h2 | ⟨_, h2⟩
      · exact ⟨_, h2⟩
      · exact ⟨_, h2⟩

theorem mem_skillsSide_shape {lang : Lang} {skills : Str} {x : DocItem}
    (h : x ∈ renderSkillsSide lang skills) :
    x = DocItem.sideHeading (pyUpper (skillsHeading lang)) ∨
      ∃ u, x = DocItem.skillLine u := by
  simp only [renderSkillsSide, List.mem_cons, mem_ite_list, List.mem_map,
    List.mem_singleton, List.not_mem_nil, and_false, or_false] at h
  rcases h with h | (⟨_, u, _, hu⟩ | ⟨_, _, h2⟩)
  · exact Or.inl h
  · exact Or.inr ⟨_, hu.symm⟩
  · exact Or.inr ⟨_, h2⟩

theorem mem_header_shape {p : Profile} {x : DocItem} (h : x ∈ renderHeader p) :
    x = DocItem.nameRun p.full_name ∨
      (x = DocItem.titleRun p.title ∧ p.title ≠ []) ∨ x = DocItem.spacer := by
  simp only [renderHeader, List.mem_cons, List.mem_append, mem_ite_list,
    List.mem_singleton, List.not_mem_nil, and_false, false_or, or_false] at h
  rcases h with h | (⟨hc, he⟩ | h)
  · exact Or.inl h
  · exact Or.inr (Or.inl ⟨he, by simpa using hc⟩)
  · exact Or.inr (Or.inr h)

theorem mem_summary_shape {wrap : Str → List Str} {lang : Lang} {s : Str}
    {x : DocItem} (h : x ∈ renderSummary wrap lang s) :
    x = DocItem.mainHeading (summaryHeading lang) ∨
      ((∃ u, x = DocItem.summaryLine u) ∧ s ≠ []) ∨ x = DocItem.spacer := by
  simp only [renderSummary, List.mem_cons, List.mem_append, mem_ite_list,
    List.mem_map, List.mem_singleton, List.not_mem_nil, and_false, false_or, or_false] at h
  rcases h with h | (⟨hc, u, _, hu⟩ | h)
  · exact Or.inl h
  · exact Or.inr (Or.inl ⟨⟨_, hu.symm⟩, by simpa using hc⟩)
  · exact Or.inr (Or.inr h)

theorem mem_expBlock_shape {e : ExpEntry} {x : DocItem} (h : x ∈ renderExpBlock e) :
    (∃ u, x = DocItem.expHeader u) ∨ (∃ u, x = DocItem.expDates u) ∨
      ∃ u, x = DocItem.expBullet u := by
  simp only [renderExpBlock, List.mem_cons, List.mem_append, mem_ite_list,
    List.mem_map, List.mem_singleton, List.not_mem_nil, and_false, or_false] at h
  rcases h with h | (⟨_, he⟩ | ⟨b, _, hb⟩)
  · exact Or.inl ⟨_, h⟩
  · exact Or.inr (Or.inl ⟨_, he⟩)
  · exact Or.inr (Or.inr ⟨_, hb.symm⟩)

theorem mem_exps_shape {lang : Lang} {exps : List ExpEntry} {x : DocItem}
    (h : x ∈ renderExps lang exps) :
    x = DocItem.mainHeading (expHeading lang) ∨ ∃ e ∈ exps, x ∈ renderExpBlock e := by
  simp only [renderExps, List.mem_cons, mem_catMap] at h
  exact h

theorem C8_theorem (wrap : Str → List Str) (p : Profile) (exps : List ExpEntry)
    (edus : List EduEntry) (skills : Str) :
    (∀ t, DocItem.contactLine t ∈ renderFallbackDoc wrap p exps edus skills → t ≠ []) ∧
    (p.title = [] →
      ∀ t, DocItem.titleRun t ∉ renderFallbackDoc wrap p exps edus skills) ∧
    (p.summary = [] →
      ∀ t, DocItem.summaryLine t ∉ renderFallbackDoc wrap p exps edus skills) ∧
    (exps = [] →
      ∀ t, DocItem.expHeader t ∉ renderFallbackDoc wrap p exps edus skills ∧
        DocItem.expBullet t ∉ renderFallbackDoc wrap p exps edus skills) ∧
    (edus = [] →
      ∀ t, DocItem.eduLine t ∉ renderFallbackDoc wrap p exps edus skills) ∧
    DocItem.mainHeading (expHeading p.lang) ∈ renderFallbackDoc wrap p exps edus skills ∧
    DocItem.sideHeading (pyUpper (eduHeading p.lang))
      ∈ renderFallbackDoc wrap p exps edus skills := by
  refine ⟨?_, ?_, ?_, ?_, ?_, ?_, ?_⟩
  · intro t ht
    rcases mem_fallback_cases ht with h | h | h | h | h | h | h
    · rcases mem_contact_shape h with ⟨u, hu⟩ | ⟨u, hu, hne⟩ <;> simp_all
    · rcases mem_eduSide_shape h with hu | ⟨_, u, hu⟩ <;> simp_all
    · rcases mem_skillsSide_shape h with hu | ⟨u, hu⟩ <;> simp_all
    · rcases mem_header_shape h with hu | ⟨hu, _⟩ | hu <;> simp_all
    · rcases mem_summary_shape h with hu | ⟨⟨u, hu⟩, _⟩ | hu <;> simp_all
    · rcases mem_exps_shape h with hu | ⟨e, _, hx⟩
      · simp_all
      · rcases mem_expBlock_shape hx with ⟨u, hu⟩ | ⟨u, hu⟩ | ⟨u, hu⟩ <;> simp_all
    · simp_all
  · intro h0 t ht
    rcases mem_fallback_cases ht with h | h | h | h | h | h | h
    · rcases mem_contact_shape h with ⟨u, hu⟩ | ⟨u, hu, _⟩ <;> simp_all
    · rcases mem_eduSide_shape h with hu | ⟨_, u, hu⟩ <;> simp_all
    · rcases mem_skillsSide_shape h with hu | ⟨u, hu⟩ <;> simp_all
    · rcases mem_header_shape h with hu | ⟨hu, hne⟩ | hu <;> simp_all
    · rcases mem_summary_shape h with hu | ⟨⟨u, hu⟩, _⟩ | hu <;> simp_all
    · rcases mem_exps_shape h with hu | ⟨e, _, hx⟩
      · simp_all
      · rcases mem_expBlock_shape hx with ⟨u, hu⟩ | ⟨u, hu⟩ | ⟨u, hu⟩ <;> simp_all
    · simp_all
  · intro h0 t ht
    rcases mem_fallback_cases ht with h | h | h | h | h | h | h
    · rcases mem_contact_shape h with ⟨u, hu⟩ | ⟨u, hu, _⟩ <;> simp_all
    · rcases mem_eduSide_shape h with hu | ⟨_, u, hu⟩ <;> simp_all
    · rcases mem_skillsSide_shape h with hu | ⟨u, hu⟩ <;> simp_all
    · rcases mem_header_shape h with hu | ⟨hu, _⟩ | hu <;> simp_all
    · rcases mem_summary_shape h with hu | ⟨⟨u, hu⟩, hne⟩ | hu <;> simp_all
    · rcases mem_exps_shape h with hu | ⟨e, _, hx⟩
      · simp_all
      · rcases mem_expBlock_shape hx with ⟨u, hu⟩ | ⟨u, hu⟩ | ⟨u, hu⟩ <;> simp_all
    · simp_all
  · intro h0 t
    subst h0
    constructor <;> intro ht <;>
      rcases mem_fallback_cases ht with h | h | h | h | h | h | h <;>
        first
          | (rcases mem_contact_shape h with ⟨u, hu⟩ | ⟨u, hu, _⟩ <;> simp_all)
          | (rcases mem_eduSide_shape h with hu | ⟨_, u, hu⟩ <;> simp_all)
          | (rcases mem_skillsSide_shape h with hu | ⟨u, hu⟩ <;> simp_all)
          | (rcases mem_header_shape h with hu | ⟨hu, _⟩ | hu <;> simp_all)
          | (rcases mem_summary_shape h with hu | ⟨⟨u, hu⟩, _⟩ | hu <;> simp_all)
          | (rcases mem_exps_shape h with hu | ⟨e, he, hx⟩ <;> simp_all)
          | simp_all
  · intro h0 t ht
    subst h0
    rcases mem_fallback_cases ht with h | h | h | h | h | h | h
    · rcases mem_contact_shape h with ⟨u, hu⟩ | ⟨u, hu, _⟩ <;> simp_all
    · rcases mem_eduSide_shape h with hu | ⟨hne, u, hu⟩ <;> simp_all
    · rcases mem_skillsSide_shape h with hu | ⟨u, hu⟩ <;> simp_all
    · rcases mem_header_shape h with hu | ⟨hu, _⟩ | hu <;> simp_all
    · rcases mem_summary_shape h with hu | ⟨⟨u, hu⟩, _⟩ | hu <;> simp_all
    · rcases mem_exps_shape h with hu | ⟨e, _, hx⟩
      · simp_all
      · rcases mem_expBlock_shape hx with ⟨u, hu⟩ | ⟨u, hu⟩ | ⟨u, hu⟩ <;> simp_all
    · simp_all
  · simp [renderFallbackDoc, renderExps]
  · simp [renderFallbackDoc, renderEduSide]

theorem C8_witness :
    DocItem.summaryLine [] ∉ renderFallbackDoc wrapId emptyProfileEn [] [] [] :=
  (C8_theorem wrapId emptyProfileEn [] [] []).2.2.1 rfl []

end CVBot
